import Mathlib

/-!
Formalisation of the co-registration core of the eo-learn coregistration
example.  The available source of the repository is the example notebook
`examples/coregistration/Coregistration.ipynb`; the helper code defined in
the notebook (`MaxCCPredicate`, `make_gif`) is embedded directly, while the
components of the `eolearn.coregistration` module that the notebook calls
(estimators, composer, warper, pipeline) are not part of the available
source and are modelled from the specification, as noted on each
definition.  Machine floats are modelled by exact rationals.
-/

namespace Coreg

/-- A 2D geometric transform: a 3×3 matrix in homogeneous coordinates,
row-major entries `aRC` (row `R`, column `C`). -/
structure Transform where
  a00 : ℚ
  a01 : ℚ
  a02 : ℚ
  a10 : ℚ
  a11 : ℚ
  a12 : ℚ
  a20 : ℚ
  a21 : ℚ
  a22 : ℚ
deriving DecidableEq

/-- The identity transform, always a valid transform and the safe fallback. -/
def Transform.ident : Transform := ⟨1, 0, 0, 0, 1, 0, 0, 0, 1⟩

/-- Homogeneous 3×3 matrix multiplication. -/
def Transform.mul (A B : Transform) : Transform :=
  ⟨A.a00 * B.a00 + A.a01 * B.a10 + A.a02 * B.a20,
   A.a00 * B.a01 + A.a01 * B.a11 + A.a02 * B.a21,
   A.a00 * B.a02 + A.a01 * B.a12 + A.a02 * B.a22,
   A.a10 * B.a00 + A.a11 * B.a10 + A.a12 * B.a20,
   A.a10 * B.a01 + A.a11 * B.a11 + A.a12 * B.a21,
   A.a10 * B.a02 + A.a11 * B.a12 + A.a12 * B.a22,
   A.a20 * B.a00 + A.a21 * B.a10 + A.a22 * B.a20,
   A.a20 * B.a01 + A.a21 * B.a11 + A.a22 * B.a21,
   A.a20 * B.a02 + A.a21 * B.a12 + A.a22 * B.a22⟩

/-- Modelled from the spec: the TransformComposer's sequential scan.
`composeFrom acc ps` emits the running absolute transform before folding in
each pairwise transform, so the result has one more entry than `ps`. -/
def composeFrom (acc : Transform) : List Transform → List Transform
  | [] => [acc]
  | p :: ps => acc :: composeFrom (acc.mul p) ps

/-- Modelled from the spec: the TransformComposer (the `eolearn.coregistration`
module is not part of the available source).  From the N−1 pairwise
transforms it produces the N absolute transforms by the recurrence
`Absolute[0] = identity`, `Absolute[i] = Absolute[i-1] ∘ Pairwise[i-1,i]`. -/
def composeAbsolute (pairwise : List Transform) : List Transform :=
  composeFrom Transform.ident pairwise

lemma composeFrom_length (acc : Transform) (ps : List Transform) :
    (composeFrom acc ps).length = ps.length + 1 := by
  induction ps generalizing acc with
  | nil => rfl
  | cons p ps ih => simp [composeFrom, ih]

lemma composeFrom_getD_zero (acc : Transform) (ps : List Transform) :
    (composeFrom acc ps).getD 0 Transform.ident = acc := by
  cases ps <;> rfl

lemma composeFrom_getD_succ (acc : Transform) (ps : List Transform)
    (i : ℕ) (hi : i < ps.length) :
    (composeFrom acc ps).getD (i + 1) Transform.ident =
      Transform.mul ((composeFrom acc ps).getD i Transform.ident)
        (ps.getD i Transform.ident) := by
  induction ps generalizing acc i with
  | nil => simp at hi
  | cons p ps ih =>
    cases i with
    | zero =>
      have h0 := composeFrom_getD_zero (acc.mul p) ps
      simpa [composeFrom, List.getD_cons_succ, List.getD_cons_zero, List.getD] using h0
    | succ j =>
      have hj : j < ps.length := by simpa using Nat.lt_of_succ_lt_succ hi
      simpa [composeFrom, List.getD_cons_succ] using ih (acc.mul p) j hj

/-- C1: for an N-frame stack the composer turns the N−1 pairwise transforms
into exactly N absolute transforms, with `perFrameTransform[0]` the identity
and `Absolute[i] = Absolute[i-1] ∘ Pairwise[i-1,i]` by homogeneous matrix
multiplication. -/
theorem c1_composer_recurrence (pairwise : List Transform) :
    (composeAbsolute pairwise).length = pairwise.length + 1 ∧
    (composeAbsolute pairwise).getD 0 Transform.ident = Transform.ident ∧
    ∀ i : ℕ, i < pairwise.length →
      (composeAbsolute pairwise).getD (i + 1) Transform.ident =
        Transform.mul ((composeAbsolute pairwise).getD i Transform.ident)
          (pairwise.getD i Transform.ident) := by
  refine ⟨composeFrom_length _ _, composeFrom_getD_zero _ _, ?_⟩
  intro i hi
  exact composeFrom_getD_succ _ _ i hi

/-- Concrete run of the composer recurrence on a two-pair chain. -/
theorem c1_composer_recurrence_witness :
    ((composeAbsolute [⟨1, 0, 3, 0, 1, -2, 0, 0, 1⟩, ⟨1, 0, 5, 0, 1, 7, 0, 0, 1⟩]).length
        = [⟨1, 0, 3, 0, 1, -2, 0, 0, 1⟩, (⟨1, 0, 5, 0, 1, 7, 0, 0, 1⟩ : Transform)].length + 1 ∧
      (composeAbsolute [⟨1, 0, 3, 0, 1, -2, 0, 0, 1⟩, ⟨1, 0, 5, 0, 1, 7, 0, 0, 1⟩]).getD 0
          Transform.ident = Transform.ident ∧
      ∀ i : ℕ, i < [⟨1, 0, 3, 0, 1, -2, 0, 0, 1⟩, (⟨1, 0, 5, 0, 1, 7, 0, 0, 1⟩ : Transform)].length →
        (composeAbsolute [⟨1, 0, 3, 0, 1, -2, 0, 0, 1⟩, ⟨1, 0, 5, 0, 1, 7, 0, 0, 1⟩]).getD (i + 1)
            Transform.ident =
          Transform.mul
            ((composeAbsolute [⟨1, 0, 3, 0, 1, -2, 0, 0, 1⟩, ⟨1, 0, 5, 0, 1, 7, 0, 0, 1⟩]).getD i
              Transform.ident)
            ([⟨1, 0, 3, 0, 1, -2, 0, 0, 1⟩, (⟨1, 0, 5, 0, 1, 7, 0, 0, 1⟩ : Transform)].getD i
              Transform.ident)) ∧
    (composeAbsolute [⟨1, 0, 3, 0, 1, -2, 0, 0, 1⟩, ⟨1, 0, 5, 0, 1, 7, 0, 0, 1⟩]).getD 2
        Transform.ident = ⟨1, 0, 8, 0, 1, 5, 0, 0, 1⟩ :=
  ⟨c1_composer_recurrence [⟨1, 0, 3, 0, 1, -2, 0, 0, 1⟩, ⟨1, 0, 5, 0, 1, 7, 0, 0, 1⟩],
    by norm_num [composeAbsolute, composeFrom, Transform.mul, Transform.ident, List.getD_cons_succ,
      List.getD_cons_zero]⟩

/-! Cloud-coverage predicate, embedded from the notebook's `MaxCCPredicate`:
`w, h, _ = img_cm.shape; cc = np.sum(img_cm) / (w * h); return cc <= self.maxcc`.
A 3D array of shape `(w, h, c)` is a list of `w` rows, each a list of `h`
pixels, each a list of `c` channel samples. -/

/-- Total sum of all samples of a 3D array (`np.sum(img_cm)`). -/
def sum3 (img : List (List (List ℚ))) : ℚ :=
  (img.map (fun r => (r.map (fun p => p.sum)).sum)).sum

/-- Embedding of `MaxCCPredicate.__call__`: the divisor is `w * h`, taken
from the first two components of the shape only. -/
def maxCCPredicate (maxcc : ℚ) (img : List (List (List ℚ))) : Bool :=
  decide (sum3 img / ((img.length : ℚ) * ((img.headD []).length : ℚ)) ≤ maxcc)

/-- Sum of one channel over all pixels of a 3D array. -/
def channelSum (img : List (List (List ℚ))) (ch : ℕ) : ℚ :=
  (img.map (fun r => (r.map (fun p => p.getD ch 0)).sum)).sum

/-- The 3D array has shape `(w, h, c)`. -/
def Shape3 (w h c : ℕ) (img : List (List (List ℚ))) : Prop :=
  img.length = w ∧ ∀ r ∈ img, r.length = h ∧ ∀ p ∈ r, p.length = c

lemma sum_eq_sum_range_getD (p : List ℚ) :
    p.sum = ∑ ch ∈ Finset.range p.length, p.getD ch 0 := by
  induction p with
  | nil => simp
  | cons a t ih =>
    rw [List.sum_cons, List.length_cons, Finset.sum_range_succ']
    simp [List.getD_cons_succ, List.getD_cons_zero, ih, add_comm]

lemma rowSum_eq_channels (c : ℕ) (r : List (List ℚ)) (h : ∀ p ∈ r, p.length = c) :
    (r.map (fun p => p.sum)).sum =
      ∑ ch ∈ Finset.range c, (r.map (fun p => p.getD ch 0)).sum := by
  induction r with
  | nil => simp
  | cons p t ih =>
    simp only [List.map_cons, List.sum_cons]
    rw [ih (fun q hq => h q (List.mem_cons_of_mem _ hq)),
      sum_eq_sum_range_getD p, h p (List.mem_cons_self _ _), ← Finset.sum_add_distrib]

lemma sum3_eq_channels (c : ℕ) (img : List (List (List ℚ)))
    (hc : ∀ r ∈ img, ∀ p ∈ r, p.length = c) :
    sum3 img = ∑ ch ∈ Finset.range c, channelSum img ch := by
  induction img with
  | nil => simp [sum3, channelSum]
  | cons r t ih =>
    simp only [sum3, channelSum, List.map_cons, List.sum_cons] at *
    rw [rowSum_eq_channels c r (hc r (List.mem_cons_self _ _)),
      ih (fun q hq p hp => hc q (List.mem_cons_of_mem _ hq) p hp), ← Finset.sum_add_distrib]

/-- C9: on a `(w, h, c)`-shaped cloud-mask array, `MaxCCPredicate maxcc`
holds exactly when the sum of all samples over all `c` channels divided by
`w * h` is at most `maxcc`; since the divisor ignores `c`, the computed
coverage is the sum of the per-channel coverages, not their mean. -/
theorem c9_maxcc_predicate (maxcc : ℚ) (w h c : ℕ) (img : List (List (List ℚ)))
    (hs : Shape3 w h c img) :
    (maxCCPredicate maxcc img = true ↔ sum3 img / ((w : ℚ) * (h : ℚ)) ≤ maxcc) ∧
    sum3 img / ((w : ℚ) * (h : ℚ)) =
      ∑ ch ∈ Finset.range c, channelSum img ch / ((w : ℚ) * (h : ℚ)) := by
  obtain ⟨hw, hrow⟩ := hs
  have hwh : ((img.length : ℚ) * ((img.headD []).length : ℚ)) = (w : ℚ) * (h : ℚ) := by
    cases img with
    | nil =>
      simp at hw
      simp [← hw]
    | cons r t =>
      have := (hrow r (List.mem_cons_self _ _)).1
      simp_all
  constructor
  · rw [maxCCPredicate, decide_eq_true_eq, hwh]
  · rw [← Finset.sum_div, sum3_eq_channels c img (fun r hr p hp => (hrow r hr).2 p hp)]

/-- Concrete run of the coverage predicate on a 2×2×2 mask. -/
theorem c9_maxcc_predicate_witness :
    Shape3 2 2 2 [[[0, 1], [1, 0]], [[1, 1], [0, 0]]] ∧
    ((maxCCPredicate 1 [[[0, 1], [1, 0]], [[1, 1], [0, 0]]] = true ↔
        sum3 [[[0, 1], [1, 0]], [[1, 1], [0, 0]]] / ((2 : ℚ) * (2 : ℚ)) ≤ 1) ∧
      sum3 [[[0, 1], [1, 0]], [[1, 1], [0, 0]]] / ((2 : ℚ) * (2 : ℚ)) =
        ∑ ch ∈ Finset.range 2,
          channelSum [[[0, 1], [1, 0]], [[1, 1], [0, 0]]] ch / ((2 : ℚ) * (2 : ℚ))) :=
  ⟨by constructor <;> decide, c9_maxcc_predicate 1 2 2 2 _ (by constructor <;> decide)⟩

/-! GIF export, embedded from the notebook's `make_gif`: for every frame it
appends `np.array(image[..., [2, 1, 0]], dtype=np.uint8)` to the writer, so
the written data is the frame's channels reordered as `[2, 1, 0]` and cast
to `uint8`; the fancy index `[2, 1, 0]` fails when the channel axis is
shorter than 3. -/

/-- Cast of an exact sample value to `uint8`: truncation toward zero
followed by the wrap modulo 256. -/
def u8cast (q : ℚ) : ℤ := (if 0 ≤ q then ⌊q⌋ else ⌈q⌉) % 256

/-- Collect a list of fallible results, failing if any entry failed. -/
def seqOption {α : Type} : List (Option α) → Option (List α)
  | [] => some []
  | none :: _ => none
  | some a :: t => (seqOption t).map (fun l => a :: l)

/-- Fancy indexing `p[[2, 1, 0]]` of one pixel's channel list followed by
the `uint8` cast; out-of-bounds indices fail. -/
def reorderPixel (p : List ℚ) : Option (List ℤ) :=
  if 2 < p.length then
    some [u8cast (p.getD 2 0), u8cast (p.getD 1 0), u8cast (p.getD 0 0)]
  else none

/-- Embedding of the data appended to the GIF writer by `make_gif` for one
frame: `np.array(image[..., [2, 1, 0]], dtype=np.uint8)`. -/
def gifFrameData (image : List (List (List ℚ))) : Option (List (List (List ℤ))) :=
  seqOption (image.map (fun r => seqOption (r.map reorderPixel)))

lemma seqOption_map_eq_some {α β : Type} (f : α → Option β) (g : α → β) (l : List α)
    (h : ∀ x ∈ l, f x = some (g x)) : seqOption (l.map f) = some (l.map g) := by
  induction l with
  | nil => rfl
  | cons a t ih =>
    rw [List.map_cons, List.map_cons, h a (List.mem_cons_self _ _), seqOption,
      ih (fun x hx => h x (List.mem_cons_of_mem _ hx))]
    rfl

lemma seqOption_map_eq_none {α β : Type} (f : α → Option β) (l : List α) (x : α)
    (hx : x ∈ l) (h : f x = none) : seqOption (l.map f) = none := by
  induction l with
  | nil => simp at hx
  | cons a t ih =>
    rcases List.mem_cons.mp hx with rfl | hx'
    · rw [List.map_cons, h, seqOption]
    · rw [List.map_cons]
      cases ha : f a with
      | none => rw [seqOption]
      | some b => rw [seqOption, ih hx']; rfl

/-- C10: for every frame appended by `make_gif`, the data written to the
GIF writer is exactly that frame's channels reordered as `[2, 1, 0]` and
cast to `uint8` — channels with index above 2 are never written — and the
append fails on a frame any of whose pixels has fewer than 3 channels. -/
theorem c10_make_gif_frame (image : List (List (List ℚ))) :
    ((∀ r ∈ image, ∀ p ∈ r, 2 < p.length) →
      gifFrameData image = some (image.map (fun r => r.map (fun p =>
        [u8cast (p.getD 2 0), u8cast (p.getD 1 0), u8cast (p.getD 0 0)])))) ∧
    ((∃ r ∈ image, ∃ p ∈ r, p.length < 3) → gifFrameData image = none) := by
  constructor
  · intro hall
    unfold gifFrameData
    refine seqOption_map_eq_some _ _ _ (fun r hr => ?_)
    refine seqOption_map_eq_some _ _ _ (fun p hp => ?_)
    rw [reorderPixel, if_pos (hall r hr p hp)]
  · rintro ⟨r, hr, p, hp, hlen⟩
    unfold gifFrameData
    refine seqOption_map_eq_none _ _ r hr ?_
    refine seqOption_map_eq_none _ _ p hp ?_
    rw [reorderPixel, if_neg (by omega)]

/-- Concrete run of the GIF frame extraction on a 1×1 frame with 4 channels. -/
theorem c10_make_gif_frame_witness :
    (∀ r ∈ [[[(10 : ℚ), 20, 30, 40]]], ∀ p ∈ r, 2 < p.length) ∧
    gifFrameData [[[(10 : ℚ), 20, 30, 40]]] =
      some ([[[(10 : ℚ), 20, 30, 40]]].map (fun r => r.map (fun p =>
        [u8cast (p.getD 2 0), u8cast (p.getD 1 0), u8cast (p.getD 0 0)]))) :=
  ⟨by decide, (c10_make_gif_frame _).1 (by decide)⟩

/-! The Warper.  Modelled from the spec (the `eolearn.coregistration` module
is not part of the available source): every layer of a frame is resampled
through the frame's resolved transform, `continuous` layers with the
configured interpolation (cubic by default, linear configurable),
`mask`/`label` layers always with nearest-neighbour, and coordinates mapped
outside the source canvas are filled with the configured fill value. -/

/-- Classification of a layer, controlling its interpolation policy. -/
inductive FeatureKind
  | continuous
  | mask
  | label
deriving DecidableEq

/-- Interpolation methods recognised by the warper. -/
inductive Interp
  | nearest
  | linear
  | cubic
deriving DecidableEq

/-- Warper configuration: global interpolation method and fill value. -/
structure WarpConfig where
  interp : Interp
  fill : ℚ
deriving DecidableEq

/-- Modelled from the spec: per-layer interpolation policy — `continuous`
layers use the configured method, `mask`/`label` layers always use
nearest-neighbour regardless of the global configuration. -/
def methodFor (cfg : WarpConfig) : FeatureKind → Interp
  | .continuous => cfg.interp
  | .mask => .nearest
  | .label => .nearest

/-- Action of a homogeneous transform on a point `(x, y)`. -/
def Transform.applyPt (T : Transform) (x y : ℚ) : ℚ × ℚ :=
  ((T.a00 * x + T.a01 * y + T.a02) / (T.a20 * x + T.a21 * y + T.a22),
   (T.a10 * x + T.a11 * y + T.a12) / (T.a20 * x + T.a21 * y + T.a22))

/-- Pixel lookup at integer coordinates, with the fill value outside the
source canvas (row `i`, column `j`). -/
def pxAtZ (d : List (List ℚ)) (fill : ℚ) (i j : ℤ) : ℚ :=
  if 0 ≤ i ∧ 0 ≤ j then (d.getD i.toNat []).getD j.toNat fill else fill

/-- Bilinear interpolation at a fractional coordinate. -/
def bilinearAt (d : List (List ℚ)) (fill : ℚ) (x y : ℚ) : ℚ :=
  let i0 := ⌊y⌋
  let j0 := ⌊x⌋
  let fy := y - (i0 : ℚ)
  let fx := x - (j0 : ℚ)
  (1 - fy) * ((1 - fx) * pxAtZ d fill i0 j0 + fx * pxAtZ d fill i0 (j0 + 1)) +
    fy * ((1 - fx) * pxAtZ d fill (i0 + 1) j0 + fx * pxAtZ d fill (i0 + 1) (j0 + 1))

/-- Keys cubic-convolution kernel (parameter −1/2) on the absolute distance. -/
def keysKernel (t : ℚ) : ℚ :=
  if t < 1 then (3 / 2 * t - 5 / 2) * t * t + 1
  else if t < 2 then (-1) / 2 * t * t * t + 5 / 2 * t * t - 4 * t + 2
  else 0

/-- Neighbour offsets of the 4×4 bicubic stencil. -/
def cubicOffsets : List ℤ := [-1, 0, 1, 2]

/-- Bicubic interpolation at a fractional coordinate. -/
def bicubicAt (d : List (List ℚ)) (fill : ℚ) (x y : ℚ) : ℚ :=
  let i0 := ⌊y⌋
  let j0 := ⌊x⌋
  let fy := y - (i0 : ℚ)
  let fx := x - (j0 : ℚ)
  (cubicOffsets.map (fun (dm : ℤ) =>
    (cubicOffsets.map (fun (dk : ℤ) =>
      keysKernel |fy - (dm : ℚ)| * keysKernel |fx - (dk : ℚ)| *
        pxAtZ d fill (i0 + dm) (j0 + dk))).sum)).sum

/-- Resampling of one output pixel, by interpolation method. -/
def sampleAt : Interp → List (List ℚ) → ℚ → ℚ → ℚ → ℚ
  | .nearest, d, fill, x, y => pxAtZ d fill (round y) (round x)
  | .linear, d, fill, x, y => bilinearAt d fill x y
  | .cubic, d, fill, x, y => bicubicAt d fill x y

/-- Modelled from the spec: warping one 2D grid — each output pixel is
resampled from the source at the transform-mapped coordinate, keeping the
grid's shape. -/
def warpGrid (method : Interp) (T : Transform) (fill : ℚ)
    (d : List (List ℚ)) : List (List ℚ) :=
  (List.range d.length).map fun (i : ℕ) =>
    (List.range (d.headD []).length).map fun (j : ℕ) =>
      let xy := Transform.applyPt T (j : ℚ) (i : ℚ)
      sampleAt method d fill xy.1 xy.2

/-- A layer: a 2D grid of samples tagged with a `FeatureKind`. -/
structure Layer where
  kind : FeatureKind
  data : List (List ℚ)
deriving DecidableEq

/-- A frame: layer identifiers mapped to layers. -/
abbrev Frame := List (ℕ × Layer)

/-- Modelled from the spec: the Warper on one layer, selecting the
interpolation by the layer's kind. -/
def warpLayer (cfg : WarpConfig) (T : Transform) (l : Layer) : Layer :=
  ⟨l.kind, warpGrid (methodFor cfg l.kind) T cfg.fill l.data⟩

/-- Modelled from the spec: the Warper on a whole frame, applying the same
resolved transform to every layer. -/
def warpFrame (cfg : WarpConfig) (T : Transform) (f : Frame) : Frame :=
  f.map (fun nl => (nl.1, warpLayer cfg T nl.2))

/-- A grid is rectangular: every row is as long as the first one. -/
def Rect (d : List (List ℚ)) : Prop :=
  ∀ r ∈ d, r.length = (d.headD []).length

instance (d : List (List ℚ)) : Decidable (Rect d) := by
  unfold Rect
  exact List.decidableBAll _ _

lemma applyPt_ident (x y : ℚ) : Transform.applyPt Transform.ident x y = (x, y) := by
  simp [Transform.applyPt, Transform.ident]

lemma pxAtZ_natCast (d : List (List ℚ)) (fill : ℚ) (i j : ℕ) :
    pxAtZ d fill (i : ℤ) (j : ℤ) = (d.getD i []).getD j fill := by
  simp [pxAtZ, Int.toNat_natCast]

lemma keysKernel_zero : keysKernel 0 = 1 := by norm_num [keysKernel]

lemma keysKernel_one : keysKernel 1 = 0 := by norm_num [keysKernel]

lemma keysKernel_two : keysKernel 2 = 0 := by norm_num [keysKernel]

lemma bilinearAt_natCast (d : List (List ℚ)) (fill : ℚ) (i j : ℕ) :
    bilinearAt d fill (j : ℚ) (i : ℚ) = (d.getD i []).getD j fill := by
  simp [bilinearAt, Int.floor_natCast, pxAtZ_natCast]

lemma bicubicAt_natCast (d : List (List ℚ)) (fill : ℚ) (i j : ℕ) :
    bicubicAt d fill (j : ℚ) (i : ℚ) = (d.getD i []).getD j fill := by
  simp only [bicubicAt, Int.floor_natCast, cubicOffsets, List.map_cons, List.map_nil,
    List.sum_cons, List.sum_nil, sub_self]
  norm_num [keysKernel_zero, keysKernel_one, keysKernel_two, pxAtZ_natCast]

lemma sampleAt_natCast (method : Interp) (d : List (List ℚ)) (fill : ℚ) (i j : ℕ) :
    sampleAt method d fill (j : ℚ) (i : ℚ) = (d.getD i []).getD j fill := by
  cases method with
  | nearest => simp [sampleAt, round_natCast, pxAtZ_natCast]
  | linear => exact bilinearAt_natCast d fill i j
  | cubic => exact bicubicAt_natCast d fill i j

lemma map_range_getD {α : Type} (l : List α) (dflt : α) :
    (List.range l.length).map (fun j => l.getD j dflt) = l := by
  induction l with
  | nil => rfl
  | cons a t ih =>
    rw [List.length_cons, List.range_succ_eq_map, List.map_cons, List.map_map]
    simp only [Function.comp_def, List.getD_cons_zero, List.getD_cons_succ]
    rw [ih]

lemma warpGrid_ident (method : Interp) (fill : ℚ) (d : List (List ℚ)) (hrect : Rect d) :
    warpGrid method Transform.ident fill d = d := by
  unfold warpGrid
  have hmain : ∀ i ∈ List.range d.length,
      ((List.range (d.headD []).length).map fun (j : ℕ) =>
        let xy := Transform.applyPt Transform.ident (j : ℚ) (i : ℚ)
        sampleAt method d fill xy.1 xy.2) = d.getD i [] := by
    intro i hi
    have hi' : i < d.length := List.mem_range.mp hi
    have hrowmem : d.getD i [] ∈ d := by
      rw [List.getD_eq_getElem _ _ hi']
      exact List.getElem_mem hi'
    have hrow : (d.getD i []).length = (d.headD []).length := hrect _ hrowmem
    calc ((List.range (d.headD []).length).map fun (j : ℕ) =>
            let xy := Transform.applyPt Transform.ident (j : ℚ) (i : ℚ)
            sampleAt method d fill xy.1 xy.2)
        = (List.range (d.getD i []).length).map fun (j : ℕ) => (d.getD i []).getD j fill := by
          rw [hrow]
          refine List.map_congr_left (fun j hj => ?_)
          simp only [applyPt_ident]
          exact sampleAt_natCast method d fill i j
      _ = d.getD i [] := map_range_getD _ _
  rw [List.map_congr_left hmain, map_range_getD]

/-- C2: the Warper with the identity transform returns a frame of identical
shape whose layers are pixel-for-pixel equal to the input layers, for any
configured interpolation method and fill value. -/
theorem c2_warper_identity (cfg : WarpConfig) (f : Frame)
    (hrect : ∀ nl ∈ f, Rect nl.2.data) :
    warpFrame cfg Transform.ident f = f := by
  unfold warpFrame
  induction f with
  | nil => rfl
  | cons nl t ih =>
    rw [List.map_cons, ih (fun x hx => hrect x (List.mem_cons_of_mem _ hx))]
    have hl : warpLayer cfg Transform.ident nl.2 = nl.2 := by
      rw [warpLayer, warpGrid_ident _ _ _ (hrect nl (List.mem_cons_self _ _))]
    rw [hl]

/-- Concrete identity-warp run on a frame with a continuous and a mask
layer under cubic interpolation and a nonzero fill value. -/
theorem c2_warper_identity_witness :
    (∀ nl ∈ [(0, Layer.mk .continuous [[1, 2], [3, 4]]), (1, Layer.mk .mask [[0, 1], [1, 0]])],
      Rect nl.2.data) ∧
    warpFrame ⟨.cubic, 5⟩ Transform.ident
        [(0, Layer.mk .continuous [[1, 2], [3, 4]]), (1, Layer.mk .mask [[0, 1], [1, 0]])] =
      [(0, Layer.mk .continuous [[1, 2], [3, 4]]), (1, Layer.mk .mask [[0, 1], [1, 0]])] :=
  ⟨by decide, c2_warper_identity _ _ (by decide)⟩

lemma pxAtZ_mem (d : List (List ℚ)) (fill : ℚ) (i j : ℤ) :
    pxAtZ d fill i j ∈ d.flatten ∨ pxAtZ d fill i j = fill := by
  unfold pxAtZ
  split
  · by_cases hi : i.toNat < d.length
    · have hrowmem : d.getD i.toNat [] ∈ d := by
        rw [List.getD_eq_getElem _ _ hi]
        exact List.getElem_mem hi
      by_cases hj : j.toNat < (d.getD i.toNat []).length
      · left
        rw [List.getD_eq_getElem _ _ hj]
        exact List.mem_flatten.mpr ⟨_, hrowmem, List.getElem_mem hj⟩
      · right
        rw [List.getD_eq_default _ _ (le_of_not_lt hj)]
    · right
      rw [List.getD_eq_default _ _ (le_of_not_lt hi)]
      rfl
  · right
    rfl

/-- C3: a `mask` or `label` layer is resampled with nearest-neighbour
regardless of the configured interpolation, so every value of the warped
layer — under any transform — is a value present in the input layer or the
configured fill value; no new categorical value is synthesized. -/
theorem c3_mask_label_nearest (cfg : WarpConfig) (T : Transform) (l : Layer)
    (hk : l.kind = .mask ∨ l.kind = .label) :
    methodFor cfg l.kind = .nearest ∧
    ∀ v ∈ (warpLayer cfg T l).data.flatten, v ∈ l.data.flatten ∨ v = cfg.fill := by
  have hm : methodFor cfg l.kind = .nearest := by
    rcases hk with h | h <;> rw [h] <;> rfl
  refine ⟨hm, ?_⟩
  intro v hv
  rw [warpLayer, hm] at hv
  obtain ⟨row, hrow, hvrow⟩ := List.mem_flatten.mp hv
  obtain ⟨i, _, rfl⟩ := List.mem_map.mp hrow
  obtain ⟨j, _, rfl⟩ := List.mem_map.mp hvrow
  exact pxAtZ_mem _ _ _ _

/-- Concrete nearest-neighbour guarantee for a mask layer with values
`{0, 1, 2}` under a non-identity translation and a globally cubic
configuration. -/
theorem c3_mask_label_nearest_witness :
    ((Layer.mk .mask [[0, 1], [2, 0]]).kind = .mask ∨
      (Layer.mk .mask [[0, 1], [2, 0]]).kind = .label) ∧
    (methodFor ⟨.cubic, 0⟩ (Layer.mk .mask [[0, 1], [2, 0]]).kind = .nearest ∧
      ∀ v ∈ (warpLayer ⟨.cubic, 0⟩ ⟨1, 0, 1/2, 0, 1, -3/4, 0, 0, 1⟩
          (Layer.mk .mask [[0, 1], [2, 0]])).data.flatten,
        v ∈ (Layer.mk .mask [[0, 1], [2, 0]]).data.flatten ∨ v = (⟨.cubic, 0⟩ : WarpConfig).fill) :=
  ⟨Or.inl rfl, c3_mask_label_nearest _ _ _ (Or.inl rfl)⟩

/-! The Feature+RANSAC estimator.  Modelled from the spec (the
`eolearn.coregistration` module is not part of the available source): the
keypoint detection, matching and robust fit are summarised by their
outcome — the number of matches found and the fitted transform — and the
estimator's acceptance logic is modelled on top of that outcome. -/

/-- Transformation models supported by point-based registration. -/
inductive RansacModel
  | euler
  | partialAffine
  | homography
deriving DecidableEq

/-- Feature descriptors recognised by the configuration. -/
inductive Descriptor
  | sift
  | surf
deriving DecidableEq

/-- Configuration of the Feature+RANSAC estimator. -/
structure FeatureRansacConfig where
  model : RansacModel
  descriptor : Descriptor
  residualThreshold : ℚ
  maxIters : ℕ
deriving DecidableEq

/-- The spec's default Feature+RANSAC configuration:
`Model=Euler, Descriptor=SIFT, ResidualThreshold=7.0, MaxIters=1000`. -/
def defaultFeatureRansacConfig : FeatureRansacConfig := ⟨.euler, .sift, 7, 1000⟩

/-- Modelled from the spec: minimum number of point matches required to fit
each transformation model. -/
def minMatches : RansacModel → ℕ
  | .euler => 2
  | .partialAffine => 3
  | .homography => 4

/-- Bounds of the plausibility check on a fitted transform. -/
structure PlausibilityBounds where
  maxTranslationSq : ℚ
  maxScaleDev : ℚ
deriving DecidableEq

/-- Modelled from the spec: the fitted transform's implied translation,
rotation and scale stay within the plausibility bound — translation
measured by the squared magnitude of the offset column, rotation and scale
by the deviation of the squared row norms of the linear part from 1. -/
def plausibleTransform (b : PlausibilityBounds) (T : Transform) : Bool :=
  decide (T.a02 ^ 2 + T.a12 ^ 2 ≤ b.maxTranslationSq ∧
    |T.a00 ^ 2 + T.a01 ^ 2 - 1| ≤ b.maxScaleDev ∧
    |T.a10 ^ 2 + T.a11 ^ 2 - 1| ≤ b.maxScaleDev)

/-- Reason codes of the warning diagnostics. -/
inductive DiagnosticKind
  | insufficientFeatures
  | estimationRejected
  | estimationNonConvergence
deriving DecidableEq

/-- A warning diagnostic: the pair indices and a reason code. -/
structure Diagnostic where
  sourceIndex : ℕ
  targetIndex : ℕ
  kind : DiagnosticKind
deriving DecidableEq

/-- Outcome of keypoint detection, matching and RANSAC fitting on one frame
pair: how many matches were found and the transform that was fitted. -/
structure MatchFit where
  matchCount : ℕ
  fitted : Transform
deriving DecidableEq

/-- Modelled from the spec: the Feature+RANSAC estimator's acceptance
logic — too few matches or an implausible fit yields the identity with
`valid = false` and a warning diagnostic, otherwise the fitted transform is
returned with `valid = true`. -/
def featureRansacEstimate (cfg : FeatureRansacConfig) (b : PlausibilityBounds)
    (srcIdx tgtIdx : ℕ) (mf : MatchFit) : (Transform × Bool) × List Diagnostic :=
  if mf.matchCount < minMatches cfg.model then
    ((Transform.ident, false), [⟨srcIdx, tgtIdx, .insufficientFeatures⟩])
  else if plausibleTransform b mf.fitted = false then
    ((Transform.ident, false), [⟨srcIdx, tgtIdx, .estimationRejected⟩])
  else ((mf.fitted, true), [])

/-- C4: whenever fewer than the minimum required matches for the chosen
model are found, or the fitted transform fails the plausibility bound, the
Feature+RANSAC estimator emits a warning diagnostic and returns the
identity with `valid = false`; in every other case it returns the fitted
transform with `valid = true` and no warning. -/
theorem c4_feature_ransac_fallback (cfg : FeatureRansacConfig) (b : PlausibilityBounds)
    (srcIdx tgtIdx : ℕ) (mf : MatchFit) :
    ((mf.matchCount < minMatches cfg.model ∨ plausibleTransform b mf.fitted = false) →
      (featureRansacEstimate cfg b srcIdx tgtIdx mf).1 = (Transform.ident, false) ∧
      (featureRansacEstimate cfg b srcIdx tgtIdx mf).2 ≠ []) ∧
    (minMatches cfg.model ≤ mf.matchCount ∧ plausibleTransform b mf.fitted = true →
      featureRansacEstimate cfg b srcIdx tgtIdx mf = ((mf.fitted, true), [])) := by
  unfold featureRansacEstimate
  constructor
  · rintro (hlt | himpl)
    · rw [if_pos hlt]
      exact ⟨rfl, by simp⟩
    · by_cases hlt : mf.matchCount < minMatches cfg.model
      · rw [if_pos hlt]
        exact ⟨rfl, by simp⟩
      · rw [if_neg hlt, if_pos himpl]
        exact ⟨rfl, by simp⟩
  · rintro ⟨hge, hpl⟩
    rw [if_neg (not_lt.mpr hge), if_neg (by rw [hpl]; simp)]

/-- Concrete fallback run: two matches are too few for a homography. -/
theorem c4_feature_ransac_fallback_witness :
    ((MatchFit.mk 2 ⟨1, 0, 3, 0, 1, 4, 0, 0, 1⟩).matchCount <
        minMatches (FeatureRansacConfig.mk .homography .sift 7 1000).model ∨
      plausibleTransform ⟨100, 1⟩ (MatchFit.mk 2 ⟨1, 0, 3, 0, 1, 4, 0, 0, 1⟩).fitted = false) ∧
    ((featureRansacEstimate ⟨.homography, .sift, 7, 1000⟩ ⟨100, 1⟩ 0 1
        (MatchFit.mk 2 ⟨1, 0, 3, 0, 1, 4, 0, 0, 1⟩)).1 = (Transform.ident, false) ∧
      (featureRansacEstimate ⟨.homography, .sift, 7, 1000⟩ ⟨100, 1⟩ 0 1
        (MatchFit.mk 2 ⟨1, 0, 3, 0, 1, 4, 0, 0, 1⟩)).2 ≠ []) :=
  ⟨Or.inl (by decide),
    ((c4_feature_ransac_fallback ⟨.homography, .sift, 7, 1000⟩ ⟨100, 1⟩ 0 1
      (MatchFit.mk 2 ⟨1, 0, 3, 0, 1, 4, 0, 0, 1⟩)).1 (Or.inl (by decide)))⟩

/-! The RegistrationPipeline.  Modelled from the spec (the
`eolearn.coregistration` module is not part of the available source): an
upfront shape-consistency check aborts with `InputShapeMismatch` before any
estimation, otherwise the N−1 pairwise estimates are computed with the
selected estimator, composed into N absolute transforms, and every frame is
warped; per-pair failures only flip validity flags, never abort. -/

/-- An ordered stack of frames. -/
abbrev FrameStack := List Frame

/-- Spatial shape of a layer. -/
def layerShape (l : Layer) : ℕ × ℕ := (l.data.length, (l.data.headD []).length)

/-- Layer identifiers with their spatial shapes, the part of a frame that
the upfront consistency check compares. -/
def frameSig (f : Frame) : List (ℕ × ℕ × ℕ) :=
  f.map (fun nl => (nl.1, layerShape nl.2))

/-- Every frame exposes the same layers with the same spatial shapes. -/
def shapesConsistent (stack : FrameStack) : Bool :=
  stack.all (fun f => decide (frameSig f = frameSig (stack.headD [])))

/-- Output of one pipeline invocation. -/
structure RegistrationResult where
  alignedStack : FrameStack
  perFrameTransform : List Transform
  perFrameValidity : List Bool
  diagnostics : List Diagnostic

/-- The pipeline's single upfront fatal error. -/
inductive PipelineError
  | inputShapeMismatch
deriving DecidableEq

/-- The single-channel reference image of a frame, reduced from the
designated layer. -/
def refGrid (refLayer : ℕ) (f : Frame) : List (List ℚ) :=
  ((f.lookup refLayer).getD ⟨.continuous, []⟩).data

/-- Consecutive frame pairs `(i, i+1)` of a stack. -/
def consecutivePairs : FrameStack → List (Frame × Frame)
  | [] => []
  | [_] => []
  | f :: g :: t => (f, g) :: consecutivePairs (g :: t)

/-- The N−1 pairwise estimates, one per consecutive pair, using the
selected estimator on the reference channel. -/
def pairwiseEstimates (est : List (List ℚ) → List (List ℚ) → Transform × Bool)
    (refLayer : ℕ) (stack : FrameStack) : List (Transform × Bool) :=
  (consecutivePairs stack).map (fun p => est (refGrid refLayer p.1) (refGrid refLayer p.2))

/-- One diagnostic per invalid pairwise estimate. -/
def pipelineDiags (pairs : List (Transform × Bool)) : List Diagnostic :=
  (List.range pairs.length).filterMap (fun i =>
    if (pairs.getD i (Transform.ident, true)).2 then none
    else some ⟨i, i + 1, DiagnosticKind.estimationRejected⟩)

/-- Modelled from the spec: the RegistrationPipeline — upfront shape check,
then estimation, composition and warping over the full stack. -/
def runPipeline (est : List (List ℚ) → List (List ℚ) → Transform × Bool)
    (refLayer : ℕ) (cfg : WarpConfig) (stack : FrameStack) :
    Except PipelineError RegistrationResult :=
  if shapesConsistent stack = false then .error .inputShapeMismatch
  else
    match stack with
    | [] => .ok ⟨[], [], [], []⟩
    | f :: rest =>
      let pairs := pairwiseEstimates est refLayer (f :: rest)
      let absT := composeAbsolute (pairs.map Prod.fst)
      .ok ⟨List.zipWith (fun T fr => warpFrame cfg T fr) absT (f :: rest), absT,
        true :: pairs.map Prod.snd, pipelineDiags pairs⟩

lemma consecutivePairs_length (f : Frame) (rest : FrameStack) :
    (consecutivePairs (f :: rest)).length = rest.length := by
  induction rest generalizing f with
  | nil => rfl
  | cons g t ih => simp [consecutivePairs, ih g]

/-- C5: the pipeline either fails upfront with `InputShapeMismatch` and
produces no partial output, or — for every estimator, including ones whose
per-pair estimates fail — returns a complete `RegistrationResult` covering
all N frames. -/
theorem c5_pipeline_total_or_upfront_error
    (est : List (List ℚ) → List (List ℚ) → Transform × Bool)
    (refLayer : ℕ) (cfg : WarpConfig) (stack : FrameStack) :
    (shapesConsistent stack = false →
      runPipeline est refLayer cfg stack = .error .inputShapeMismatch) ∧
    (shapesConsistent stack = true →
      ∃ r, runPipeline est refLayer cfg stack = .ok r ∧
        r.alignedStack.length = stack.length ∧
        r.perFrameTransform.length = stack.length ∧
        r.perFrameValidity.length = stack.length) := by
  constructor
  · intro hbad
    rw [runPipeline.eq_def, if_pos hbad]
  · intro hok
    rw [runPipeline.eq_def, if_neg (by rw [hok]; simp)]
    cases stack with
    | nil => exact ⟨_, rfl, rfl, rfl, rfl⟩
    | cons f rest =>
      refine ⟨_, rfl, ?_, ?_, ?_⟩
      · simp [List.length_zipWith, composeAbsolute, composeFrom_length, pairwiseEstimates,
          consecutivePairs_length]
      · simp [composeAbsolute, composeFrom_length, pairwiseEstimates, consecutivePairs_length]
      · simp [pairwiseEstimates, consecutivePairs_length]

/-- Concrete upfront failure: two frames of mismatched spatial shape. -/
theorem c5_pipeline_total_or_upfront_error_witness :
    shapesConsistent [[(0, Layer.mk .continuous [[1]])], [(0, Layer.mk .continuous [[1, 2]])]]
        = false ∧
    runPipeline (fun _ _ => (Transform.ident, true)) 0 ⟨.cubic, 0⟩
        [[(0, Layer.mk .continuous [[1]])], [(0, Layer.mk .continuous [[1, 2]])]] =
      .error .inputShapeMismatch :=
  ⟨by decide,
    (c5_pipeline_total_or_upfront_error (fun _ _ => (Transform.ident, true)) 0 ⟨.cubic, 0⟩
      [[(0, Layer.mk .continuous [[1]])], [(0, Layer.mk .continuous [[1, 2]])]]).1 (by decide)⟩

/-! Input immutability.  Modelled from the spec: every component reads,
never writes, the original frames, so each phase is modelled as a function
that receives the input stack's storage and returns it along with its
result, and the pipeline threads that storage through all phases. -/

/-- Estimation phase over the input storage: reads the reference channels,
returns the pairwise estimates and the storage. -/
def estimatePhaseTracked (est : List (List ℚ) → List (List ℚ) → Transform × Bool)
    (refLayer : ℕ) (stack : FrameStack) : List (Transform × Bool) × FrameStack :=
  (pairwiseEstimates est refLayer stack, stack)

/-- Composition phase over the input storage. -/
def composePhaseTracked (pairs : List (Transform × Bool)) (stack : FrameStack) :
    List Transform × FrameStack :=
  (composeAbsolute (pairs.map Prod.fst), stack)

/-- Warp phase over the input storage: the aligned frames are newly built
by `warpFrame`, the storage is only read. -/
def warpPhaseTracked (cfg : WarpConfig) (absT : List Transform) (stack : FrameStack) :
    FrameStack × FrameStack :=
  (List.zipWith (fun T fr => warpFrame cfg T fr) absT stack, stack)

/-- Modelled from the spec: the pipeline with the input stack's storage
threaded explicitly through every phase. -/
def runPipelineTracked (est : List (List ℚ) → List (List ℚ) → Transform × Bool)
    (refLayer : ℕ) (cfg : WarpConfig) (stack : FrameStack) :
    Except PipelineError RegistrationResult × FrameStack :=
  if shapesConsistent stack = false then (.error .inputShapeMismatch, stack)
  else
    match stack with
    | [] => (.ok ⟨[], [], [], []⟩, stack)
    | f :: rest =>
      let ep := estimatePhaseTracked est refLayer (f :: rest)
      let cp := composePhaseTracked ep.1 ep.2
      let wp := warpPhaseTracked cfg cp.1 cp.2
      (.ok ⟨wp.1, cp.1, true :: ep.1.map Prod.snd, pipelineDiags ep.1⟩, wp.2)

/-- C7: running the pipeline leaves the input stack's storage unchanged —
every frame and layer of the input is exactly as before — and the tracked
run produces the same result as the pipeline itself. -/
theorem c7_pipeline_preserves_input
    (est : List (List ℚ) → List (List ℚ) → Transform × Bool)
    (refLayer : ℕ) (cfg : WarpConfig) (stack : FrameStack) :
    (runPipelineTracked est refLayer cfg stack).2 = stack ∧
    (runPipelineTracked est refLayer cfg stack).1 = runPipeline est refLayer cfg stack := by
  unfold runPipelineTracked runPipeline
  by_cases hs : shapesConsistent stack = false
  · rw [if_pos hs, if_pos hs]
    exact ⟨rfl, rfl⟩
  · rw [if_neg hs, if_neg hs]
    cases stack with
    | nil => exact ⟨rfl, rfl⟩
    | cons f rest =>
      exact ⟨rfl, rfl⟩

/-! The Translation-by-correlation estimator.  Modelled from the spec (the
`eolearn.coregistration` module is not part of the available source): the
inverse Fourier transform of the cross-power spectrum of two images equals,
by the convolution theorem, their circular cross-correlation, so the
estimator is modelled directly in the spatial domain — it locates the peak
of the circular cross-correlation surface over all cyclic shifts and turns
the peak shift into a translation; it always reports `valid = true`.
An image of size `m × n` is a function of row and column indices, of which
only indices below `m` and `n` are consulted. -/

/-- Circular cross-correlation of two `m × n` images at cyclic shift
`(u, v)`. -/
def circCrossCorr (m n : ℕ) (a b : ℕ → ℕ → ℚ) (u v : ℕ) : ℚ :=
  ∑ i ∈ Finset.range m, ∑ j ∈ Finset.range n, a i j * b ((i + u) % m) ((j + v) % n)

/-- All cyclic shifts of an `m × n` image. -/
def allShifts (m n : ℕ) : List (ℕ × ℕ) :=
  ((List.range m).map (fun u => (List.range n).map (fun v => (u, v)))).flatten

/-- Location of the peak of a correlation surface, scanning all shifts from
`(0, 0)` and moving only on strict improvement. -/
def peakShift (m n : ℕ) (r : ℕ × ℕ → ℚ) : ℕ × ℕ :=
  (allShifts m n).foldl (fun best s => if r best < r s then s else best) (0, 0)

/-- Pure translation by `(dx, dy)` as a homogeneous transform. -/
def translationTransform (dx dy : ℚ) : Transform := ⟨1, 0, dx, 0, 1, dy, 0, 0, 1⟩

/-- Modelled from the spec: the Translation-by-correlation estimator.
The peak shift `(u, v)` (row, column) gives the translation; always
`valid = true`. -/
def thunderEstimate (m n : ℕ) (a b : ℕ → ℕ → ℚ) : Transform × Bool :=
  (translationTransform
    ((peakShift m n (fun s => circCrossCorr m n a b s.1 s.2)).2 : ℚ)
    ((peakShift m n (fun s => circCrossCorr m n a b s.1 s.2)).1 : ℚ), true)

lemma foldl_better_stays {α : Type} (r : α → ℚ) (b : α) (l : List α)
    (h : ∀ s ∈ l, r s ≤ r b) :
    l.foldl (fun best s => if r best < r s then s else best) b = b := by
  induction l with
  | nil => rfl
  | cons a t ih =>
    have hstep : (if r b < r a then a else b) = b :=
      if_neg (not_lt.mpr (h a (List.mem_cons_self _ _)))
    rw [List.foldl_cons, hstep]
    exact ih (fun s hs => h s (List.mem_cons_of_mem _ hs))

lemma shift_mod_left_inv (m u a : ℕ) (hm : 0 < m) (ha : a < m) :
    ((a + u) % m + (m - u % m)) % m = a := by
  rw [Nat.mod_add_mod]
  obtain ⟨q, hq⟩ : m ∣ u - u % m := Nat.dvd_sub_mod u
  have h2 := Nat.mod_le u m
  have h3 := Nat.mod_lt u hm
  have h1 : a + u + (m - u % m) = a + m + (u - u % m) := by omega
  rw [h1, hq, Nat.add_mul_mod_self_left, Nat.add_mod_right, Nat.mod_eq_of_lt ha]

lemma shift_mod_right_inv (m u a : ℕ) (hm : 0 < m) (ha : a < m) :
    ((a + (m - u % m)) % m + u) % m = a := by
  rw [Nat.mod_add_mod]
  obtain ⟨q, hq⟩ : m ∣ u - u % m := Nat.dvd_sub_mod u
  have h2 := Nat.mod_le u m
  have h3 := Nat.mod_lt u hm
  have h1 : a + (m - u % m) + u = a + m + (u - u % m) := by omega
  rw [h1, hq, Nat.add_mul_mod_self_left, Nat.add_mod_right, Nat.mod_eq_of_lt ha]

lemma sum_range_shift_mod (m u : ℕ) (f : ℕ → ℚ) :
    ∑ i ∈ Finset.range m, f ((i + u) % m) = ∑ i ∈ Finset.range m, f i := by
  rcases Nat.eq_zero_or_pos m with rfl | hm
  · simp
  · refine Finset.sum_nbij' (fun i => (i + u) % m) (fun i => (i + (m - u % m)) % m)
      (fun a _ => Finset.mem_range.mpr (Nat.mod_lt _ hm))
      (fun a _ => Finset.mem_range.mpr (Nat.mod_lt _ hm))
      (fun a ha => shift_mod_left_inv m u a hm (Finset.mem_range.mp ha))
      (fun a ha => shift_mod_right_inv m u a hm (Finset.mem_range.mp ha))
      (fun a _ => rfl)

lemma circCrossCorr_zero_self (m n : ℕ) (a : ℕ → ℕ → ℚ) :
    circCrossCorr m n a a 0 0 =
      ∑ i ∈ Finset.range m, ∑ j ∈ Finset.range n, a i j ^ 2 := by
  unfold circCrossCorr
  refine Finset.sum_congr rfl (fun i hi => ?_)
  refine Finset.sum_congr rfl (fun j hj => ?_)
  rw [Nat.add_zero, Nat.mod_eq_of_lt (Finset.mem_range.mp hi),
    Nat.add_zero, Nat.mod_eq_of_lt (Finset.mem_range.mp hj), sq]

lemma sum_sq_shift (m n u v : ℕ) (a : ℕ → ℕ → ℚ) :
    (∑ i ∈ Finset.range m, ∑ j ∈ Finset.range n, a ((i + u) % m) ((j + v) % n) ^ 2) =
      ∑ i ∈ Finset.range m, ∑ j ∈ Finset.range n, a i j ^ 2 := by
  have h1 : ∀ i : ℕ,
      (∑ j ∈ Finset.range n, a ((i + u) % m) ((j + v) % n) ^ 2) =
        ∑ j ∈ Finset.range n, a ((i + u) % m) j ^ 2 :=
    fun i => sum_range_shift_mod n v (fun j => a ((i + u) % m) j ^ 2)
  rw [Finset.sum_congr rfl (fun i _ => h1 i)]
  exact sum_range_shift_mod m u (fun i => ∑ j ∈ Finset.range n, a i j ^ 2)

lemma circCrossCorr_le_self (m n : ℕ) (a : ℕ → ℕ → ℚ) (u v : ℕ) :
    circCrossCorr m n a a u v ≤ circCrossCorr m n a a 0 0 := by
  have hcs := Finset.sum_mul_sq_le_sq_mul_sq ((Finset.range m) ×ˢ (Finset.range n))
    (fun p => a p.1 p.2) (fun p => a ((p.1 + u) % m) ((p.2 + v) % n))
  simp only [Finset.sum_product] at hcs
  rw [sum_sq_shift m n u v a] at hcs
  have hA0 : (0 : ℚ) ≤ ∑ i ∈ Finset.range m, ∑ j ∈ Finset.range n, a i j ^ 2 :=
    Finset.sum_nonneg (fun i _ => Finset.sum_nonneg (fun j _ => sq_nonneg _))
  rw [circCrossCorr_zero_self]
  unfold circCrossCorr
  nlinarith [hcs, hA0,
    sq_nonneg ((∑ i ∈ Finset.range m, ∑ j ∈ Finset.range n,
        a i j * a ((i + u) % m) ((j + v) % n)) -
      ∑ i ∈ Finset.range m, ∑ j ∈ Finset.range n, a i j ^ 2),
    sq_nonneg ((∑ i ∈ Finset.range m, ∑ j ∈ Finset.range n,
        a i j * a ((i + u) % m) ((j + v) % n)) +
      ∑ i ∈ Finset.range m, ∑ j ∈ Finset.range n, a i j ^ 2)]

lemma peakShift_self (m n : ℕ) (a : ℕ → ℕ → ℚ) :
    peakShift m n (fun s => circCrossCorr m n a a s.1 s.2) = (0, 0) :=
  foldl_better_stays _ _ _ (fun s _ => circCrossCorr_le_self m n a s.1 s.2)

/-! The Correlation-maximization (ECC-style) estimator.  Modelled from the
spec: starting from the identity, a rotation+translation parameterization
is adjusted iteratively to maximize a normalized correlation objective
between the source and the warped target (here the squared normalized
cross-correlation, so that the objective stays rational); a move is taken
only when it improves the objective by more than the convergence epsilon,
and the best transform found is returned with `valid = true`. -/

/-- Squared normalized cross-correlation of two `m × n` images. -/
def nccSq (m n : ℕ) (a b : ℕ → ℕ → ℚ) : ℚ :=
  (∑ i ∈ Finset.range m, ∑ j ∈ Finset.range n, a i j * b i j) ^ 2 /
    ((∑ i ∈ Finset.range m, ∑ j ∈ Finset.range n, a i j ^ 2) *
      (∑ i ∈ Finset.range m, ∑ j ∈ Finset.range n, b i j ^ 2))

/-- Warp of an `m × n` functional image by a transform, nearest-neighbour,
zero outside the canvas. -/
def warpFn (m n : ℕ) (T : Transform) (g : ℕ → ℕ → ℚ) : ℕ → ℕ → ℚ :=
  fun i j =>
    let xy := Transform.applyPt T (j : ℚ) (i : ℚ)
    let ri := round xy.2
    let rj := round xy.1
    if 0 ≤ ri ∧ ri < (m : ℤ) ∧ 0 ≤ rj ∧ rj < (n : ℤ) then g ri.toNat rj.toNat else 0

/-- The correlation objective maximized by the iteration. -/
def eccObjective (m n : ℕ) (src tgt : ℕ → ℕ → ℚ) (T : Transform) : ℚ :=
  nccSq m n src (warpFn m n T tgt)

/-- Candidate perturbations of the rotation+translation parameterization at
one step size. -/
def eccCandidates (stepSize : ℚ) (T : Transform) : List Transform :=
  [T.mul (translationTransform stepSize 0), T.mul (translationTransform (-stepSize) 0),
   T.mul (translationTransform 0 stepSize), T.mul (translationTransform 0 (-stepSize)),
   T.mul ⟨1, -stepSize, 0, stepSize, 1, 0, 0, 0, 1⟩,
   T.mul ⟨1, stepSize, 0, -stepSize, 1, 0, 0, 0, 1⟩]

/-- One iteration step: move to the best candidate that improves the
objective by more than `eps`, else stay. -/
def eccStep (obj : Transform → ℚ) (eps stepSize : ℚ) (T : Transform) : Transform :=
  (eccCandidates stepSize T).foldl (fun best c => if obj best + eps < obj c then c else best) T

/-- The iteration, stopping at convergence or after `MaxIters` steps. -/
def eccIterate (obj : Transform → ℚ) (eps stepSize : ℚ) : ℕ → Transform → Transform
  | 0, T => T
  | k + 1, T =>
    let next := eccStep obj eps stepSize T
    if next = T then T else eccIterate obj eps stepSize k next

/-- Configuration of the Correlation-maximization estimator. -/
structure CorrelationMaxConfig where
  maxIters : ℕ
  epsilon : ℚ
deriving DecidableEq

/-- Modelled from the spec: the Correlation-maximization estimator, starting
from the identity; always `valid = true` (non-convergence only emits a
diagnostic). -/
def eccEstimate (cfg : CorrelationMaxConfig) (stepSize : ℚ) (m n : ℕ)
    (src tgt : ℕ → ℕ → ℚ) : Transform × Bool :=
  (eccIterate (eccObjective m n src tgt) cfg.epsilon stepSize cfg.maxIters Transform.ident, true)

lemma foldl_eps_stays {α : Type} (obj : α → ℚ) (eps : ℚ) (b : α) (l : List α)
    (h : ∀ s ∈ l, obj s ≤ obj b + eps) :
    l.foldl (fun best c => if obj best + eps < obj c then c else best) b = b := by
  induction l with
  | nil => rfl
  | cons a t ih =>
    have hstep : (if obj b + eps < obj a then a else b) = b :=
      if_neg (not_lt.mpr (h a (List.mem_cons_self _ _)))
    rw [List.foldl_cons, hstep]
    exact ih (fun s hs => h s (List.mem_cons_of_mem _ hs))

lemma nccSq_le_one (m n : ℕ) (a b : ℕ → ℕ → ℚ) : nccSq m n a b ≤ 1 := by
  unfold nccSq
  have hcs := Finset.sum_mul_sq_le_sq_mul_sq ((Finset.range m) ×ˢ (Finset.range n))
    (fun p => a p.1 p.2) (fun p => b p.1 p.2)
  simp only [Finset.sum_product] at hcs
  rcases eq_or_lt_of_le (mul_nonneg
      (Finset.sum_nonneg (fun i _ => Finset.sum_nonneg (fun j _ => sq_nonneg (a i j))))
      (Finset.sum_nonneg (fun i _ => Finset.sum_nonneg (fun j _ => sq_nonneg (b i j))))) with
    hz | hpos
  · rw [← hz, div_zero]
    exact zero_le_one
  · exact (div_le_one hpos).mpr hcs

lemma warpFn_ident (m n : ℕ) (g : ℕ → ℕ → ℚ) (i j : ℕ) (hi : i < m) (hj : j < n) :
    warpFn m n Transform.ident g i j = g i j := by
  simp [warpFn, applyPt_ident, round_natCast, Int.toNat_natCast, hi, hj]

lemma eccObjective_ident (m n : ℕ) (a : ℕ → ℕ → ℚ)
    (hA : 0 < ∑ i ∈ Finset.range m, ∑ j ∈ Finset.range n, a i j ^ 2) :
    eccObjective m n a a Transform.ident = 1 := by
  unfold eccObjective nccSq
  have h1 : (∑ i ∈ Finset.range m, ∑ j ∈ Finset.range n,
      a i j * warpFn m n Transform.ident a i j) =
      ∑ i ∈ Finset.range m, ∑ j ∈ Finset.range n, a i j ^ 2 := by
    refine Finset.sum_congr rfl (fun i hi => Finset.sum_congr rfl (fun j hj => ?_))
    rw [warpFn_ident m n a i j (Finset.mem_range.mp hi) (Finset.mem_range.mp hj), sq]
  have h2 : (∑ i ∈ Finset.range m, ∑ j ∈ Finset.range n,
      warpFn m n Transform.ident a i j ^ 2) =
      ∑ i ∈ Finset.range m, ∑ j ∈ Finset.range n, a i j ^ 2 := by
    refine Finset.sum_congr rfl (fun i hi => Finset.sum_congr rfl (fun j hj => ?_))
    rw [warpFn_ident m n a i j (Finset.mem_range.mp hi) (Finset.mem_range.mp hj)]
  rw [h1, h2, sq, div_self (mul_ne_zero (ne_of_gt hA) (ne_of_gt hA))]

lemma eccIterate_ident (m n : ℕ) (a : ℕ → ℕ → ℚ) (eps stepSize : ℚ) (k : ℕ)
    (heps : 0 ≤ eps)
    (hA : 0 < ∑ i ∈ Finset.range m, ∑ j ∈ Finset.range n, a i j ^ 2) :
    eccIterate (eccObjective m n a a) eps stepSize k Transform.ident = Transform.ident := by
  have hstay : eccStep (eccObjective m n a a) eps stepSize Transform.ident = Transform.ident := by
    refine foldl_eps_stays _ _ _ _ (fun c _ => ?_)
    rw [eccObjective_ident m n a hA]
    calc eccObjective m n a a c ≤ 1 := nccSq_le_one _ _ _ _
      _ ≤ 1 + eps := le_add_of_nonneg_right heps
  cases k with
  | zero => rfl
  | succ k => rw [eccIterate, hstay, if_pos rfl]

/-- C8: on a non-degenerate image correlated with itself, the
Translation-by-correlation estimator locates the correlation peak at zero
shift and returns the identity with `valid = true`, and the
Correlation-maximization estimator never leaves its identity start and
returns the identity with `valid = true`. -/
theorem c8_self_estimate_identity (m n : ℕ) (a : ℕ → ℕ → ℚ)
    (cfg : CorrelationMaxConfig) (stepSize : ℚ) (heps : 0 ≤ cfg.epsilon)
    (hA : 0 < ∑ i ∈ Finset.range m, ∑ j ∈ Finset.range n, a i j ^ 2) :
    thunderEstimate m n a a = (Transform.ident, true) ∧
    eccEstimate cfg stepSize m n a a = (Transform.ident, true) := by
  constructor
  · unfold thunderEstimate
    rw [peakShift_self m n a]
    simp [translationTransform, Transform.ident]
  · unfold eccEstimate
    rw [eccIterate_ident m n a cfg.epsilon stepSize cfg.maxIters heps hA]

/-- Concrete self-estimation run on a non-degenerate 2×2 image. -/
theorem c8_self_estimate_identity_witness :
    ((0 : ℚ) ≤ (CorrelationMaxConfig.mk 200 (1 / 1000000)).epsilon ∧
      0 < ∑ i ∈ Finset.range 2, ∑ j ∈ Finset.range 2,
        (fun i j : ℕ => (i * 2 + j + 1 : ℚ)) i j ^ 2) ∧
    (thunderEstimate 2 2 (fun i j : ℕ => (i * 2 + j + 1 : ℚ))
        (fun i j : ℕ => (i * 2 + j + 1 : ℚ)) = (Transform.ident, true) ∧
      eccEstimate ⟨200, 1 / 1000000⟩ (1 / 2) 2 2 (fun i j : ℕ => (i * 2 + j + 1 : ℚ))
        (fun i j : ℕ => (i * 2 + j + 1 : ℚ)) = (Transform.ident, true)) :=
  ⟨⟨by norm_num, by norm_num [Finset.sum_range_succ]⟩,
    c8_self_estimate_identity 2 2 (fun i j : ℕ => (i * 2 + j + 1 : ℚ)) ⟨200, 1 / 1000000⟩
      (1 / 2) (by norm_num) (by norm_num [Finset.sum_range_succ])⟩

/-! Construction of the point-based registration, embedded from the
notebook.  The notebook passes the parameter dictionary
`{Model: 'Euler', Descriptor: 'SURF', RANSACThreshold: 7.0, MaxIters: 1000}`
to `PointBasedRegistration` and its recorded output logs
`Model set to Euler`, `Descriptor set to SIFT`,
`RANSAC MaxIters set to 1000`, `RANSAC threshold set to 7.0`, after which
the run proceeds normally: the supplied descriptor SURF is replaced by the
default SIFT with only a log line, and construction does not fail. -/

/-- Parameter dictionary accepted by `PointBasedRegistration`. -/
structure PBRParams where
  model : RansacModel
  descriptor : Descriptor
  ransacThreshold : ℚ
  maxIters : ℕ
deriving DecidableEq

/-- Outcome of constructing a `PointBasedRegistration`: the configuration
values the constructor reports using, and whether construction failed. -/
structure PBRConstruction where
  modelUsed : RansacModel
  descriptorUsed : Descriptor
  maxItersUsed : ℕ
  thresholdUsed : ℚ
  fatal : Bool
deriving DecidableEq

/-- The parameters passed to `PointBasedRegistration` in the notebook:
`{Model: 'Euler', Descriptor: 'SURF', RANSACThreshold: 7.0, MaxIters: 1000}`. -/
def pbrNotebookParams : PBRParams := ⟨.euler, .surf, 7, 1000⟩

/-- The `PointBasedRegistration` constructor as recorded by the notebook's
output log: model, iteration count and threshold are taken from the
parameters, the descriptor is set to the default SIFT (the notebook's run
supplied SURF and logged `Descriptor set to SIFT`), and no error is
raised. -/
def pbrConstruct (p : PBRParams) : PBRConstruction :=
  ⟨p.model, .sift, p.maxIters, p.ransacThreshold, false⟩

/-- C6 counterexample: in the notebook's own recorded run the configured
descriptor SURF is not the descriptor the constructor reports using — it is
silently set to SIFT — and construction is not fatal, contradicting the
claim that the estimator uses the configured descriptor and that an
unusable descriptor value is fatal at construction. -/
theorem c6_descriptor_counterexample :
    (pbrConstruct pbrNotebookParams).descriptorUsed ≠ pbrNotebookParams.descriptor ∧
    (pbrConstruct pbrNotebookParams).fatal = false :=
  ⟨by decide, rfl⟩

/-- C6 amended: the Descriptor option ranges over the enumerated
descriptors with default SIFT, but at construction the supplied descriptor
may be replaced by the default SIFT with only a log message and without any
error, while Model, MaxIters and RANSACThreshold are taken as configured. -/
theorem c6_descriptor_silent_default (p : PBRParams) :
    (pbrConstruct p).descriptorUsed = .sift ∧
    (pbrConstruct p).fatal = false ∧
    (pbrConstruct p).modelUsed = p.model ∧
    (pbrConstruct p).maxItersUsed = p.maxIters ∧
    (pbrConstruct p).thresholdUsed = p.ransacThreshold :=
  ⟨rfl, rfl, rfl, rfl, rfl⟩

end Coreg
